/-
  Verification of the node-voicemail-data data-access layer.

  Shallow embedding of the JavaScript sources:
    - lib/helpers/common.js   (save / getFields / removeEmptyFields)
    - lib/repositories/mailbox.js (save, newMessage / readMessage /
      deletedMessage modifiers, updateMwi)
    - lib/repositories/message.js (all, save, markAsRead, remove,
      convertForStorage / convertFromStorage)
    - lib/providers/sqlite.js (beginTransaction statement text)

  JavaScript values that matter to the control flow (truthiness of
  attributes, null vs undefined, strings vs booleans vs numbers) are
  modelled by the inductive type `JSVal`.  Database rows are modelled by
  explicit structures; the promise chains of the transactional operations
  are linearized into explicit event traces, since the database lock
  serializes each transaction.
-/

import Mathlib

namespace VoicemailData

/-- A JavaScript value as far as the data layer's control flow cares:
`undefined`, `null`, numbers, strings and booleans. -/
inductive JSVal
  | undef
  | null
  | num (n : Int)
  | str (s : String)
  | bool (b : Bool)
deriving DecidableEq, Repr

/-- JavaScript truthiness: `undefined`, `null`, `0`, `""` and `false` are
falsy, everything else modelled here is truthy. -/
def JSVal.truthy : JSVal → Bool
  | .undef => false
  | .null => false
  | .num n => n != 0
  | .str s => s != ""
  | .bool b => b

/-- Capitalizes the first character of a word (the `Case.title` step used
on reference names in `common.js`). -/
def capitalizeWord (s : String) : String :=
  match s.data with
  | [] => ""
  | c :: cs => String.mk (c.toUpper :: cs)

/-- Splits a character list on the given separator, accumulating the
current word. -/
def charSplitAux (sep : Char) : List Char → List Char → List (List Char)
  | [], acc => [acc.reverse]
  | c :: cs, acc =>
      if c = sep then acc.reverse :: charSplitAux sep cs []
      else charSplitAux sep cs (c :: acc)

/-- The function `Case.camel` restricted to snake_case input, as applied to column
names in `common.js` (`Case.camel(column.name)`). -/
def camelOfSnake (s : String) : String :=
  match charSplitAux '_' s.data [] with
  | [] => ""
  | w :: ws =>
      String.mk w ++ String.join (ws.map (fun l => capitalizeWord (String.mk l)))

/-- The expression `column.name.split('_')[0]`, the reference name derived from a
reference column in `common.js#getFields`. -/
def refNameOfColumn (name : String) : String :=
  String.mk ((charSplitAux '_' name.data []).headD [])

/-- A node-sql column as far as `common.js#getFields` inspects it: its
name and whether it carries a `references` entry. -/
structure Column where
  name : String
  isRef : Bool
deriving DecidableEq, Repr

/-- An entity instance as `common.js` accesses it: camelCase attribute
lookup (absent attributes are `undefined`) and method lookup for the
`getX` owner accessors, returning the owner's `getId()` value. -/
structure JSInstance where
  attrs : String → JSVal
  refGet : String → Option JSVal

/-- One step of the fold in `common.js#getFields` (lines 255-280): a
reference column contributes `instance[method]().getId()` whenever the
`get<Title(referenceName)>` method exists; an ordinary column contributes
`instance[Case.camel(column.name)]` only when that value is truthy. -/
def getFieldsStep (inst : JSInstance) (all : List (String × JSVal)) (c : Column) :
    List (String × JSVal) :=
  if c.isRef then
    match inst.refGet ("get" ++ capitalizeWord (refNameOfColumn c.name)) with
    | some v => all ++ [(c.name, v)]
    | none => all
  else
    let v := inst.attrs (camelOfSnake c.name)
    if v.truthy then all ++ [(c.name, v)] else all

/-- Embeds `common.js#getFields`: reduce over the table's columns, accumulating
the fields that will appear in the statement. -/
def getFields (cols : List Column) (inst : JSInstance) : List (String × JSVal) :=
  cols.foldl (getFieldsStep inst) []

/-- Embeds `common.js#removeEmptyFields`: drops fields whose value is
`undefined`; its doc comment states that nulls are conserved so that
fields can be updated to a null value. -/
def removeEmptyFields (fields : List (String × JSVal)) : List (String × JSVal) :=
  fields.filter (fun f => f.2 ≠ JSVal.undef)

/-- The field list of the UPDATE statement issued by `common.js#save` for
an instance that has an identifier (lines 182-191):
`removeEmptyFields` applied to the accumulated `getFields` object. -/
def commonSaveUpdateFields (cols : List Column) (inst : JSInstance) :
    List (String × JSVal) :=
  removeEmptyFields (getFields cols inst)

/-- Membership in the `getFields` fold: every accumulated field either was
already in the accumulator or stems from some column of the list; for a
non-reference column the value is the instance attribute and that
attribute is truthy. -/
theorem mem_getFields_foldl (inst : JSInstance) (cols : List Column) :
    ∀ (acc : List (String × JSVal)) (x : String × JSVal),
      x ∈ cols.foldl (getFieldsStep inst) acc →
      x ∈ acc ∨ ∃ c ∈ cols, x.1 = c.name ∧
        (c.isRef = false →
          x.2 = inst.attrs (camelOfSnake c.name) ∧
          (inst.attrs (camelOfSnake c.name)).truthy = true) := by
  induction cols with
  | nil =>
      intro acc x hx
      exact Or.inl hx
  | cons c cs ih =>
      intro acc x hx
      rw [List.foldl_cons] at hx
      rcases ih (getFieldsStep inst acc c) x hx with h | ⟨c', hc', hx1, hx2⟩
      · unfold getFieldsStep at h
        by_cases href : c.isRef
        · simp only [href, if_true] at h
          rcases hmatch : inst.refGet ("get" ++ capitalizeWord (refNameOfColumn c.name)) with
            _ | v
          · rw [hmatch] at h
            exact Or.inl h
          · rw [hmatch] at h
            rcases List.mem_append.mp h with h' | h'
            · exact Or.inl h'
            · refine Or.inr ⟨c, List.mem_cons_self c cs, ?_, ?_⟩
              · rcases List.mem_singleton.mp h' with h''
                rw [h'']
              · intro habs
                rw [habs] at href
                exact Bool.noConfusion href
        · simp only [href, if_false] at h
          by_cases htr : (inst.attrs (camelOfSnake c.name)).truthy
          · simp only [htr, if_true] at h
            rcases List.mem_append.mp h with h' | h'
            · exact Or.inl h'
            · rcases List.mem_singleton.mp h' with h''
              refine Or.inr ⟨c, List.mem_cons_self c cs, ?_, ?_⟩
              · rw [h'']
              · intro _
                rw [h'']
                exact ⟨rfl, htr⟩
          · simp only [htr, if_false] at h
            exact Or.inl h
      · exact Or.inr ⟨c', List.mem_cons_of_mem c hc', hx1, hx2⟩

/-- The mailbox row as the counter protocol reads it: the `read` and
`unread` integer columns are nullable (`vm_mailbox` schema,
`mailbox.js` lines 388-392). -/
structure MailboxRow where
  read : Option Int
  unread : Option Int
deriving DecidableEq, Repr

/-- The JavaScript expression `+v || d` applied to a nullable numeric
column value: `+null` is `0`, and `0` is falsy, so both `null` and `0`
fall back to the default `d`. -/
def jsNumOr (v : Option Int) (d : Int) : Int :=
  match v with
  | none => d
  | some n => if n = 0 then d else n

/-- A pair of MWI counts as computed by a counter modifier. -/
structure Counts where
  read : Int
  unread : Int
deriving DecidableEq, Repr

/-- The `newMessage` modifier (`mailbox.js` lines 206-214):
`read = +row.read || 0`, `unread = +row.unread || 0`, returns
`{read, unread + 1}`. -/
def newMessageModifier (row : MailboxRow) : Counts :=
  { read := jsNumOr row.read 0
    unread := jsNumOr row.unread 0 + 1 }

/-- The `readMessage` modifier (`mailbox.js` lines 231-240):
`read = +row.read || 0`, `unread = +row.unread || 1` (the comment in the
source: make sure unread will be 0 if currently null), returns
`{read + 1, unread - 1}`. -/
def readMessageModifier (row : MailboxRow) : Counts :=
  { read := jsNumOr row.read 0 + 1
    unread := jsNumOr row.unread 1 - 1 }

/-- The `deletedMessage` modifier (`mailbox.js` lines 258-275): decrement
`read` when it is truthy and the deleted message had been read, decrement
`unread` when it is truthy and the message had not been read. -/
def deletedMessageModifier (messageRead : Bool) (row : MailboxRow) : Counts :=
  let read := jsNumOr row.read 0
  let unread := jsNumOr row.unread 0
  let read' := if read ≠ 0 ∧ messageRead = true then read - 1 else read
  let unread' := if unread ≠ 0 ∧ messageRead = false then unread - 1 else unread
  { read := read', unread := unread' }

/-- An observable step of the `updateMwi` transaction (`mailbox.js`
lines 290-338): opening the transaction, the locking select, the MWI
notification callback, the write-back of the counts, commit, rollback. -/
inductive MwiEvent
  | beginTx (exclusive : Bool)
  | selectForUpdate
  | mwiCall (read unread : Int)
  | updateCounts (read unread : Int)
  | commit
  | rollback
deriving DecidableEq, Repr

/-- Recognizes the notification-callback event. -/
def MwiEvent.isMwiCall : MwiEvent → Bool
  | .mwiCall _ _ => true
  | _ => false

/-- Recognizes the counts write-back event. -/
def MwiEvent.isWrite : MwiEvent → Bool
  | .updateCounts _ _ => true
  | _ => false

/-- The outcome of one `updateMwi` invocation: the ordered trace of
database/callback events, the value the promise settles with, and the
durable mailbox row after the transaction resolves. -/
structure MwiOutcome where
  trace : List MwiEvent
  result : Except String Counts
  stored : MailboxRow
deriving Repr

/-- Embeds `mailbox.js#updateMwi` (lines 290-338), linearized under the
database lock it acquires: begin an exclusive transaction, run the
locking select of the mailbox row, compute `counts = modifier(row)`,
call `mwi(counts.read, counts.unread)` and wait for it; on success run
the UPDATE writing the counts back and commit; on failure roll back and
re-raise the error, leaving the stored row unchanged. -/
def updateMwi (stored : MailboxRow) (mwi : Int → Int → Except String Unit)
    (modifier : MailboxRow → Counts) : MwiOutcome :=
  let counts := modifier stored
  match mwi counts.read counts.unread with
  | .ok _ =>
      { trace := [.beginTx true, .selectForUpdate,
                  .mwiCall counts.read counts.unread,
                  .updateCounts counts.read counts.unread, .commit]
        result := .ok counts
        stored := { read := some counts.read, unread := some counts.unread } }
  | .error e =>
      { trace := [.beginTx true, .selectForUpdate,
                  .mwiCall counts.read counts.unread, .rollback]
        result := .error e
        stored := stored }

/-- Embeds `mailbox.js#newMessage`: `updateMwi` with the new-message modifier. -/
def mailboxNewMessage (stored : MailboxRow) (mwi : Int → Int → Except String Unit) :
    MwiOutcome :=
  updateMwi stored mwi newMessageModifier

/-- Embeds `mailbox.js#readMessage`: `updateMwi` with the read-message modifier. -/
def mailboxReadMessage (stored : MailboxRow) (mwi : Int → Int → Except String Unit) :
    MwiOutcome :=
  updateMwi stored mwi readMessageModifier

/-- Embeds `mailbox.js#deletedMessage`: `updateMwi` with the deleted-message
modifier for the given read status. -/
def mailboxDeletedMessage (stored : MailboxRow) (messageRead : Bool)
    (mwi : Int → Int → Except String Unit) : MwiOutcome :=
  updateMwi stored mwi (deletedMessageModifier messageRead)

/-- C1: the `readMessage` modifier computes `read + 1` (null read counts
as 0) and `unread - 1` where a null stored unread counts as 1; over rows
whose stored unread is null or non-negative the new unread is never
negative, and stored unread in {null, 0} yields a new unread of 0. -/
theorem readMessage_modifier_counts (row : MailboxRow)
    (h : row.unread = none ∨ ∃ n : Int, row.unread = some n ∧ 0 ≤ n) :
    (readMessageModifier row).read = jsNumOr row.read 0 + 1 ∧
    (row.read = none → (readMessageModifier row).read = 1) ∧
    0 ≤ (readMessageModifier row).unread ∧
    ((row.unread = none ∨ row.unread = some 0) →
      (readMessageModifier row).unread = 0) ∧
    (∀ n : Int, 1 ≤ n → row.unread = some n →
      (readMessageModifier row).unread = n - 1) := by
  refine ⟨rfl, ?_, ?_, ?_, ?_⟩
  · intro hr
    simp [readMessageModifier, jsNumOr, hr]
  · rcases h with h0 | ⟨n, hn, hpos⟩
    · simp [readMessageModifier, jsNumOr, h0]
    · simp only [readMessageModifier, jsNumOr, hn]
      by_cases hz : n = 0
      · simp [hz]
      · simp only [hz, if_false]
        omega
  · intro hu
    rcases hu with h0 | h0 <;> simp [readMessageModifier, jsNumOr, h0]
  · intro n hpos hn
    simp only [readMessageModifier, jsNumOr, hn]
    have hz : ¬ n = 0 := by omega
    simp [hz]

/-- C1 witness: a row with both counters null satisfies the hypothesis
and yields new counts read 1, unread 0. -/
theorem readMessage_modifier_counts_witness :
    ((⟨none, none⟩ : MailboxRow).unread = none ∨
      ∃ n : Int, (⟨none, none⟩ : MailboxRow).unread = some n ∧ 0 ≤ n) ∧
    (readMessageModifier ⟨none, none⟩).read = jsNumOr none 0 + 1 ∧
    0 ≤ (readMessageModifier ⟨none, none⟩).unread := by
  have h := readMessage_modifier_counts ⟨none, none⟩ (Or.inl rfl)
  exact ⟨Or.inl rfl, h.1, h.2.2.1⟩

/-- C4: in every counter-protocol invocation the notification callback
fires exactly once, with the counts that will be written back, strictly
before any write-back or commit; on callback failure the transaction
rolls back, nothing is written, and the callback's error becomes the
operation's error. -/
theorem updateMwi_notifies_before_commit (modifier : MailboxRow → Counts)
    (mwi : Int → Int → Except String Unit) (row : MailboxRow) :
    ∃ pre post,
      (updateMwi row mwi modifier).trace =
        pre ++ MwiEvent.mwiCall (modifier row).read (modifier row).unread :: post ∧
      (∀ e ∈ pre, e.isMwiCall = false ∧ e.isWrite = false ∧ e ≠ MwiEvent.commit) ∧
      (∀ e ∈ post, e.isMwiCall = false) ∧
      (mwi (modifier row).read (modifier row).unread = .ok () →
        (updateMwi row mwi modifier).result = .ok (modifier row) ∧
        MwiEvent.updateCounts (modifier row).read (modifier row).unread ∈ post ∧
        (updateMwi row mwi modifier).stored =
          { read := some (modifier row).read, unread := some (modifier row).unread }) ∧
      (∀ err, mwi (modifier row).read (modifier row).unread = .error err →
        (updateMwi row mwi modifier).result = .error err ∧
        (updateMwi row mwi modifier).stored = row ∧
        MwiEvent.rollback ∈ post ∧
        (∀ e ∈ (updateMwi row mwi modifier).trace, e.isWrite = false)) := by
  refine ⟨[MwiEvent.beginTx true, MwiEvent.selectForUpdate], ?_⟩
  rcases hcall : mwi (modifier row).read (modifier row).unread with err | u
  · refine ⟨[MwiEvent.rollback], ?_, ?_, ?_, ?_, ?_⟩
    · simp [updateMwi, hcall]
    · intro e he
      simp only [List.mem_cons, List.not_mem_nil, or_false] at he
      rcases he with rfl | rfl <;> exact ⟨rfl, rfl, by decide⟩
    · intro e he
      simp only [List.mem_cons, List.not_mem_nil, or_false] at he
      rcases he with rfl
      rfl
    · intro habs
      exact Except.noConfusion habs
    · intro err' herr
      injection herr with herr
      subst herr
      refine ⟨?_, ?_, by simp, ?_⟩
      · simp [updateMwi, hcall]
      · simp [updateMwi, hcall]
      · intro e he
        simp only [updateMwi, hcall] at he
        simp only [List.mem_cons, List.not_mem_nil, or_false] at he
        rcases he with rfl | rfl | rfl | rfl <;> rfl
  · refine ⟨[MwiEvent.updateCounts (modifier row).read (modifier row).unread,
             MwiEvent.commit], ?_, ?_, ?_, ?_, ?_⟩
    · simp [updateMwi, hcall]
    · intro e he
      simp only [List.mem_cons, List.not_mem_nil, or_false] at he
      rcases he with rfl | rfl <;> exact ⟨rfl, rfl, by decide⟩
    · intro e he
      simp only [List.mem_cons, List.not_mem_nil, or_false] at he
      rcases he with rfl | rfl <;> rfl
    · intro _
      refine ⟨?_, by simp, ?_⟩ <;> simp [updateMwi, hcall]
    · intro err habs
      exact Except.noConfusion habs

/-- C4 witness: with a failing callback on a concrete mailbox row the
operation fails with the callback's error and the stored counts are
untouched. -/
theorem updateMwi_notifies_before_commit_witness :
    (updateMwi ⟨some 2, some 3⟩ (fun _ _ => Except.error "mwifail")
        newMessageModifier).result = Except.error "mwifail" ∧
    (updateMwi ⟨some 2, some 3⟩ (fun _ _ => Except.error "mwifail")
        newMessageModifier).stored = ⟨some 2, some 3⟩ := by
  obtain ⟨pre, post, -, -, -, -, h5⟩ :=
    updateMwi_notifies_before_commit newMessageModifier
      (fun _ _ => Except.error "mwifail") ⟨some 2, some 3⟩
  obtain ⟨h1, h2, -, -⟩ := h5 "mwifail" rfl
  exact ⟨h1, h2⟩

/-- C8 (Scenario A): on a mailbox row with both counters null,
`newMessage` computes counts {read 0, unread 1}; when the callback
succeeds these counts are returned to the caller and written back. -/
theorem newMessage_fresh_mailbox (mwi : Int → Int → Except String Unit)
    (h : mwi 0 1 = Except.ok ()) :
    (mailboxNewMessage ⟨none, none⟩ mwi).result = Except.ok ⟨0, 1⟩ ∧
    (mailboxNewMessage ⟨none, none⟩ mwi).stored = ⟨some 0, some 1⟩ ∧
    MwiEvent.mwiCall 0 1 ∈ (mailboxNewMessage ⟨none, none⟩ mwi).trace := by
  have hmod : newMessageModifier ⟨none, none⟩ = ⟨0, 1⟩ := rfl
  refine ⟨?_, ?_, ?_⟩ <;>
    simp [mailboxNewMessage, updateMwi, hmod, h]

/-- C8 witness: an always-succeeding callback discharges the hypothesis;
the fresh mailbox ends with counts {0, 1}. -/
theorem newMessage_fresh_mailbox_witness :
    (fun _ _ => Except.ok ()      : Int → Int → Except String Unit) 0 1 =
      Except.ok () ∧
    (mailboxNewMessage ⟨none, none⟩ (fun _ _ => Except.ok ())).result =
      Except.ok ⟨0, 1⟩ := by
  have h := newMessage_fresh_mailbox (fun _ _ => Except.ok ()) rfl
  exact ⟨rfl, h.1⟩

/-- Node's `util.format` applied to a format string without placeholders
and one extra string argument: the extra argument is concatenated to the
format string, separated by a space.  This is the semantics of
`util.format('BEGIN', lock ? ' IMMEDIATE' : '')` in
`sqlite.js#beginTransaction` (line 100), whose format string has no
`%s` specifier. -/
def utilFormatExtraArg (fmt extra : String) : String :=
  fmt ++ " " ++ extra

/-- The transaction-opening statement issued by the sqlite provider's
`beginTransaction(lock)` (`sqlite.js` lines 92-107). -/
def sqliteBeginStatement (lock : Bool) : String :=
  utilFormatExtraArg "BEGIN" (if lock then " IMMEDIATE" else "")

/-- Splits a SQL statement into whitespace-separated tokens, dropping
empty fragments; SQLite's tokenizer treats any run of whitespace as a
single separator. -/
def sqlTokens (s : String) : List String :=
  ((charSplitAux ' ' s.data []).map String.mk).filter (fun t => t ≠ "")

/-- C2 counterexample: the statement text is not the exact string
claimed, for either value of the flag — the `%s`-less `util.format`
inserts an extra space. -/
theorem sqliteBeginStatement_text_ne :
    sqliteBeginStatement true ≠ "BEGIN IMMEDIATE" ∧
    sqliteBeginStatement false ≠ "BEGIN" := by
  constructor <;> decide

/-- C2 amended: with `exclusive = true` the statement is
`"BEGIN  IMMEDIATE"` (double space) and with `false` it is `"BEGIN "`
(trailing space); after whitespace tokenization these read
`BEGIN IMMEDIATE` and `BEGIN`, so an immediate write lock is still
requested exactly when the flag is set. -/
theorem sqliteBeginStatement_tokens :
    sqliteBeginStatement true = "BEGIN  IMMEDIATE" ∧
    sqliteBeginStatement false = "BEGIN " ∧
    sqlTokens (sqliteBeginStatement true) = ["BEGIN", "IMMEDIATE"] ∧
    sqlTokens (sqliteBeginStatement false) = ["BEGIN"] := by
  refine ⟨rfl, rfl, ?_, ?_⟩ <;> decide

/-- The value of a message's `read` field: a boolean in object format, a
string (`'Y'`/`'N'` char(1) column) in storage format. -/
inductive ReadVal
  | bool (b : Bool)
  | str (s : String)
deriving DecidableEq, Repr

/-- JavaScript truthiness of a `read` field value. -/
def ReadVal.truthy : ReadVal → Bool
  | .bool b => b
  | .str s => s != ""

/-- The strict comparison `message.read === 'Y'` performed by
`message.js#convertFromStorage` (line 424). -/
def ReadVal.isY : ReadVal → Bool
  | .str s => s == "Y"
  | .bool _ => false

/-- The value of a message's `date` field: a UTC moment object (object
format, carrying its epoch seconds) or the sqlite storage integer. -/
inductive DateVal
  | obj (epochSec : Int)
  | store (n : Int)
deriving DecidableEq, Repr

/-- Embeds `sqlite.js#convertDateForStorage`: `date.unix()` of a UTC moment.
The modelled flows only ever apply it to object-format dates. -/
def convertDateForStorage : DateVal → DateVal
  | .obj e => .store e
  | .store n => .store n

/-- Embeds `sqlite.js#convertDateFromStorage`: `moment.unix(date).utc()`.
The modelled flows only ever apply it to storage-format dates. -/
def convertDateFromStorage : DateVal → DateVal
  | .store n => .obj n
  | .obj e => .obj e

/-- A message record, as mutated in place between object and storage
format; only the fields the transactional operations touch are kept,
the remaining columns are never read or written by them. -/
structure Message where
  read : ReadVal
  date : DateVal
deriving DecidableEq, Repr

/-- Embeds `message.js#convertFromStorage` (lines 419-429), on a non-null
message: `read = (read === 'Y')`, date decoded from storage. -/
def convertFromStorage (m : Message) : Message :=
  { read := .bool m.read.isY
    date := convertDateFromStorage m.date }

/-- Embeds `message.js#convertForStorage` (lines 434-444), on a non-null
message: `read = read ? 'Y' : 'N'`, date encoded for storage. -/
def convertForStorage (m : Message) : Message :=
  { read := .str (if m.read.truthy then "Y" else "N")
    date := convertDateForStorage m.date }

/-- Embeds `message.js#markAsRead` (lines 296-350), linearized under the lock
of the exclusive transaction it opens: re-fetch the row by identifier,
convert it from storage; when it exists and is not read, set `read` to
true, convert back and UPDATE only the `read` column; commit; resolve
with whether a change occurred.  Input and output carry the stored row
for the message's identifier (`none` when the row does not exist). -/
def messageMarkAsRead (stored : Option Message) : Bool × Option Message :=
  match stored with
  | none => (false, none)
  | some row =>
      let message := convertFromStorage row
      if message.read = ReadVal.bool true then
        (false, some row)
      else
        let message' := convertForStorage { message with read := .bool true }
        (true, some { row with read := message'.read })

/-- Embeds `message.js#remove` (lines 355-397), linearized under the lock of
the exclusive transaction it opens: re-fetch the row by identifier,
delete by identifier, commit, and resolve with the converted,
pre-deletion snapshot — `undefined` when the row was already gone
(deleting an absent row is a silent no-op).  Returns the resolved
snapshot and the stored row after the transaction. -/
def messageRemove (stored : Option Message) : Option Message × Option Message :=
  match stored with
  | none => (none, none)
  | some row => (some (convertFromStorage row), none)

/-- Embeds `message.js#save` (lines 255-266): `convertForStorage` mutates the
caller's instance in place into storage format, that same object is
handed to `common.save`, and no conversion back happens afterwards;
the function returns the in-memory instance as it is left after the
operation resolves. -/
def messageSave (msg : Message) : Message :=
  convertForStorage msg

/-- C6: `markAsRead` is idempotent.  On a stored row that is unread
(`'N'`) it writes `'Y'` and resolves true; on a row already read it
performs no write and resolves false; two successive calls resolve true
then false and leave the stored flag `'Y'`. -/
theorem markAsRead_idempotent (row : Message) (h : row.read = ReadVal.str "N") :
    messageMarkAsRead (some row) =
      (true, some { row with read := ReadVal.str "Y" }) ∧
    (∀ r : Message, r.read = ReadVal.str "Y" →
      messageMarkAsRead (some r) = (false, some r)) ∧
    (messageMarkAsRead (messageMarkAsRead (some row)).2).1 = false ∧
    (∃ r, (messageMarkAsRead (messageMarkAsRead (some row)).2).2 = some r ∧
      r.read = ReadVal.str "Y") := by
  have h1 : messageMarkAsRead (some row) =
      (true, some { row with read := ReadVal.str "Y" }) := by
    simp [messageMarkAsRead, convertFromStorage, convertForStorage,
      ReadVal.isY, ReadVal.truthy, h]
  have h2 : ∀ r : Message, r.read = ReadVal.str "Y" →
      messageMarkAsRead (some r) = (false, some r) := by
    intro r hr
    simp [messageMarkAsRead, convertFromStorage, ReadVal.isY, hr]
  refine ⟨h1, h2, ?_, ?_⟩
  · rw [h1]
    rw [h2 { row with read := ReadVal.str "Y" } rfl]
  · refine ⟨{ row with read := ReadVal.str "Y" }, ?_, rfl⟩
    rw [h1]
    rw [h2 { row with read := ReadVal.str "Y" } rfl]

/-- C6 witness: a concrete unread stored row; the first call resolves
true and flips the stored flag to `'Y'`. -/
theorem markAsRead_idempotent_witness :
    (⟨ReadVal.str "N", DateVal.store 5⟩ : Message).read = ReadVal.str "N" ∧
    messageMarkAsRead (some ⟨ReadVal.str "N", DateVal.store 5⟩) =
      (true, some ⟨ReadVal.str "Y", DateVal.store 5⟩) := by
  have h := markAsRead_idempotent ⟨ReadVal.str "N", DateVal.store 5⟩ rfl
  exact ⟨rfl, h.1⟩

/-- C7 (Scenario D): `remove` deletes by identifier and resolves with
the pre-deletion snapshot; a second removal of the same identifier finds
no row, raises no error and resolves with no snapshot — of two
serialized removals exactly the first returns the snapshot. -/
theorem message_remove_twice (row : Message) :
    messageRemove (some row) = (some (convertFromStorage row), none) ∧
    messageRemove (messageRemove (some row)).2 = (none, none) := by
  exact ⟨rfl, rfl⟩

/-- C10: after `message.save` resolves, the in-memory instance holds the
storage encoding: `read` is the string `'Y'` or `'N'` (not a boolean)
and `date` is the provider's storage representation; nothing converts
the fields back to object format. -/
theorem message_save_storage_format (msg : Message) :
    (messageSave msg).read = ReadVal.str (if msg.read.truthy then "Y" else "N") ∧
    (∃ s, (messageSave msg).read = ReadVal.str s) ∧
    (messageSave msg).date = convertDateForStorage msg.date ∧
    (∀ e, msg.date = DateVal.obj e → (messageSave msg).date = DateVal.store e) := by
  refine ⟨rfl, ⟨if msg.read.truthy then "Y" else "N", rfl⟩, rfl, ?_⟩
  intro e he
  simp [messageSave, convertForStorage, convertDateForStorage, he]

/-- C10 witness: a concrete object-format message; after save its read
field is the string `'Y'` and its date the storage integer. -/
theorem message_save_storage_format_witness :
    (messageSave ⟨ReadVal.bool true, DateVal.obj 100⟩).read = ReadVal.str "Y" ∧
    (messageSave ⟨ReadVal.bool true, DateVal.obj 100⟩).date = DateVal.store 100 := by
  have h := message_save_storage_format ⟨ReadVal.bool true, DateVal.obj 100⟩
  exact ⟨h.1, h.2.2.2 100 rfl⟩

/-- Embeds the `calculateRuns` helper of `message.js#all` (lines 169-172) with the fixed
batch size 50: even limit runs plus any remainder. -/
def calculateRuns (count : Nat) : Nat :=
  count / 50 + (if count % 50 > 0 then 1 else 0)

/-- One batch query of `message.js#all` (lines 186-209): the rows of the
(mailbox, folder) pair ordered by date, at `OFFSET offset LIMIT 50`,
each row mapped through `convertFromStorage`. -/
def getMessageBatch (rows : List Message) (offset : Nat) : List Message :=
  ((rows.drop offset).take 50).map convertFromStorage

/-- Embeds `message.js#all` (lines 139-210): count the pair's rows, issue one
batch query per run at offsets 0, 50, 100, ... (the `while` loop in
`getPromises`), and concatenate the batch results in offset order (the
`reduce` over the settled promises).  `rows` is the date-ordered row
list the engine returns for the (mailbox, folder) pair. -/
def allMessages (rows : List Message) : List Message :=
  ((List.range (calculateRuns rows.length)).map
    (fun i => getMessageBatch rows (i * 50))).foldl (· ++ ·) []

/-- Folding list concatenation from an initial prefix is that prefix
followed by the join. -/
theorem foldl_append_eq_join (ls : List (List Message)) :
    ∀ init : List Message, ls.foldl (· ++ ·) init = init ++ ls.flatten := by
  induction ls with
  | nil => intro init; simp
  | cons l ls ih =>
      intro init
      rw [List.foldl_cons, ih, List.flatten_cons, List.append_assoc]

/-- Peeling one batch off the run count: for a non-empty list, the run
count is one more than the run count of the list minus 50 elements. -/
theorem calculateRuns_succ (n : Nat) (h : 1 ≤ n) :
    calculateRuns n = calculateRuns (n - 50) + 1 := by
  unfold calculateRuns
  rcases Nat.lt_or_ge n 50 with h50 | h50
  · have h1 : n / 50 = 0 := Nat.div_eq_of_lt h50
    have h2 : n % 50 = n := Nat.mod_eq_of_lt h50
    have h3 : n - 50 = 0 := by omega
    simp [h1, h2, h3]
    omega
  · have h1 : n / 50 = (n - 50) / 50 + 1 := by omega
    have h2 : n % 50 = (n - 50) % 50 := by omega
    rw [h1, h2]
    omega

/-- The run count equals the ceiling of the count divided by 50. -/
theorem calculateRuns_eq_ceil (n : Nat) :
    calculateRuns n = (n + 49) / 50 := by
  unfold calculateRuns
  rcases eq_or_ne (n % 50) 0 with h | h
  · simp [h]
    omega
  · have : n % 50 > 0 := Nat.pos_of_ne_zero h
    simp [this]
    omega

/-- Joining the 50-element chunks of a list at offsets 0, 50, ...
reconstructs the list. -/
theorem join_chunks (l : List Message) :
    ((List.range (calculateRuns l.length)).map
      (fun i => (l.drop (i * 50)).take 50)).flatten = l := by
  have aux : ∀ (n : Nat) (l : List Message), l.length ≤ n →
      ((List.range (calculateRuns l.length)).map
        (fun i => (l.drop (i * 50)).take 50)).flatten = l := by
    intro n
    induction n with
    | zero =>
        intro l hl
        have : l = [] := List.eq_nil_of_length_eq_zero (Nat.le_zero.mp hl)
        subst this
        simp [calculateRuns]
    | succ n ih =>
        intro l hl
        by_cases hnil : l.length = 0
        · have : l = [] := List.eq_nil_of_length_eq_zero hnil
          subst this
          simp [calculateRuns]
        · have h1 : 1 ≤ l.length := Nat.one_le_iff_ne_zero.mpr hnil
          rw [calculateRuns_succ l.length h1]
          rw [List.range_succ_eq_map, List.map_cons, List.map_map, List.flatten_cons]
          have hdrop : ∀ i : Nat, l.drop ((i + 1) * 50) = (l.drop 50).drop (i * 50) := by
            intro i
            rw [List.drop_drop]
            congr 1
            omega
          have hmap : (List.range (calculateRuns (l.length - 50))).map
              ((fun i => (l.drop (i * 50)).take 50) ∘ Nat.succ) =
              (List.range (calculateRuns ((l.drop 50).length))).map
              (fun i => ((l.drop 50).drop (i * 50)).take 50) := by
            rw [List.length_drop]
            apply List.map_congr_left
            intro i _
            simp only [Function.comp_apply]
            rw [← hdrop i]
          rw [hmap]
          rw [ih (l.drop 50) (by rw [List.length_drop]; omega)]
          simp
  exact aux l.length l (Nat.le_refl _)

/-- C9 (P5, pagination completeness): `all` issues `ceil(N/50)` batch
queries at offsets 0, 50, 100, ... of batch size 50 and returns exactly
the N stored messages of the pair, concatenated in per-batch date order
(the result is the date-ordered row list, converted from storage); a
count of 0 yields zero batch queries and an empty result. -/
theorem all_pagination_complete (rows : List Message) :
    allMessages rows = rows.map convertFromStorage ∧
    (allMessages rows).length = rows.length ∧
    calculateRuns rows.length = (rows.length + 49) / 50 ∧
    calculateRuns 0 = 0 ∧
    allMessages ([] : List Message) = [] := by
  have key : allMessages rows = rows.map convertFromStorage := by
    unfold allMessages getMessageBatch
    rw [foldl_append_eq_join, List.nil_append]
    have hcomm : ∀ i : Nat,
        (((rows.drop (i * 50)).take 50).map convertFromStorage) =
        (((rows.map convertFromStorage).drop (i * 50)).take 50) := by
      intro i
      rw [List.map_take, List.map_drop]
    calc ((List.range (calculateRuns rows.length)).map
            (fun i => ((rows.drop (i * 50)).take 50).map convertFromStorage)).flatten
        = ((List.range (calculateRuns (rows.map convertFromStorage).length)).map
            (fun i => (((rows.map convertFromStorage).drop (i * 50)).take 50))).flatten := by
          rw [List.length_map]
          congr 1
          apply List.map_congr_left
          intro i _
          exact hcomm i
      _ = rows.map convertFromStorage := join_chunks _
  refine ⟨key, ?_, calculateRuns_eq_ceil rows.length, rfl, ?_⟩
  · rw [key, List.length_map]
  · simp [allMessages, calculateRuns]

/-- The mailbox instance built by `mailbox.js#create` (lines 55-82), as
`common.js` accesses it: the camelCase data attributes, the `getId()`
value and the `getContext().getId()` value reachable through the
`getContext` method. -/
structure MailboxJS where
  id : JSVal
  contextId : JSVal
  mailboxNumber : JSVal
  mailboxName : JSVal
  password : JSVal
  name : JSVal
  email : JSVal
  read : JSVal
  unread : JSVal
  greetingBusy : JSVal
  greetingAway : JSVal
  greetingName : JSVal
deriving DecidableEq, Repr

/-- Property lookup on a mailbox instance: the data attributes of the
object literal in `mailbox.js#create`; any other key (including `id`,
which lives in a closure, not on the object) is `undefined`. -/
def MailboxJS.attrs (m : MailboxJS) : String → JSVal := fun p =>
  if p = "mailboxNumber" then m.mailboxNumber
  else if p = "mailboxName" then m.mailboxName
  else if p = "password" then m.password
  else if p = "name" then m.name
  else if p = "email" then m.email
  else if p = "read" then m.read
  else if p = "unread" then m.unread
  else if p = "greetingBusy" then m.greetingBusy
  else if p = "greetingAway" then m.greetingAway
  else if p = "greetingName" then m.greetingName
  else JSVal.undef

/-- Method lookup on a mailbox instance for the reference accessors:
only `getContext` exists, returning the owning context's `getId()`. -/
def MailboxJS.refGet (m : MailboxJS) : String → Option JSVal := fun meth =>
  if meth = "getContext" then some m.contextId else none

/-- A mailbox instance seen through the `common.js` access interface. -/
def MailboxJS.toInstance (m : MailboxJS) : JSInstance :=
  { attrs := m.attrs, refGet := m.refGet }

/-- The `vm_mailbox` column list (`mailbox.js` lines 355-402):
`context_id` is the only reference column. -/
def mailboxColumns : List Column :=
  [⟨"id", false⟩, ⟨"mailbox_number", false⟩, ⟨"mailbox_name", false⟩,
   ⟨"context_id", true⟩, ⟨"password", false⟩, ⟨"name", false⟩,
   ⟨"email", false⟩, ⟨"read", false⟩, ⟨"unread", false⟩,
   ⟨"greeting_away", false⟩, ⟨"greeting_busy", false⟩,
   ⟨"greeting_name", false⟩]

/-- The field list of the UPDATE statement `common.js#save` issues for a
mailbox instance that has an identifier. -/
def mailboxUpdateFields (m : MailboxJS) : List (String × JSVal) :=
  commonSaveUpdateFields mailboxColumns m.toInstance

/-- Embeds `mailbox.js#save` (lines 155-176): when the instance has a (truthy)
identifier, stash `read`/`unread`, blank them to `undefined` so the
update cannot touch those columns, run `common.save`, then restore the
stashed values on the in-memory instance.  Returns the statement's field
list and the in-memory instance after the promise resolves. -/
def mailboxRepoSave (m : MailboxJS) : List (String × JSVal) × MailboxJS :=
  if m.id.truthy then
    let m1 : MailboxJS := { m with read := JSVal.undef, unread := JSVal.undef }
    (mailboxUpdateFields m1, { m1 with read := m.read, unread := m.unread })
  else
    (getFields mailboxColumns m.toInstance, m)

/-- C5 (P3): for a mailbox instance with an identifier, `save` never
includes the `read` or `unread` columns in the update it issues, and
after the save resolves the in-memory instance is exactly what it was
before the call (in particular its `read` and `unread` fields). -/
theorem mailbox_save_preserves_counters (m : MailboxJS) (h : m.id.truthy = true) :
    (∀ x ∈ (mailboxRepoSave m).1, x.1 ≠ "read" ∧ x.1 ≠ "unread") ∧
    (mailboxRepoSave m).2.read = m.read ∧
    (mailboxRepoSave m).2.unread = m.unread ∧
    (mailboxRepoSave m).2 = m := by
  have hsave : mailboxRepoSave m =
      (mailboxUpdateFields { m with read := JSVal.undef, unread := JSVal.undef }, m) := by
    unfold mailboxRepoSave
    rw [if_pos h]
  rw [hsave]
  refine ⟨?_, rfl, rfl, rfl⟩
  intro x hx
  have hx1 : x ∈ getFields mailboxColumns
      (MailboxJS.toInstance { m with read := JSVal.undef, unread := JSVal.undef }) := by
    have := List.mem_filter.mp hx
    exact this.1
  have hmem := mem_getFields_foldl
    (MailboxJS.toInstance { m with read := JSVal.undef, unread := JSVal.undef })
    mailboxColumns [] x hx1
  rcases hmem with habs | ⟨c, hc, hname, himpl⟩
  · exact absurd habs (List.not_mem_nil x)
  · have hattrs : ∀ p : String, p = "read" ∨ p = "unread" →
        (MailboxJS.toInstance
          { m with read := JSVal.undef, unread := JSVal.undef }).attrs p =
        JSVal.undef := by
      intro p hp
      rcases hp with rfl | rfl <;>
        simp [MailboxJS.toInstance, MailboxJS.attrs]
    simp only [mailboxColumns, List.mem_cons, List.not_mem_nil, or_false] at hc
    rcases hc with rfl | rfl | rfl | rfl | rfl | rfl | rfl | rfl | rfl | rfl | rfl | rfl
    · rw [hname]; exact ⟨by decide, by decide⟩
    · rw [hname]; exact ⟨by decide, by decide⟩
    · rw [hname]; exact ⟨by decide, by decide⟩
    · rw [hname]; exact ⟨by decide, by decide⟩
    · rw [hname]; exact ⟨by decide, by decide⟩
    · rw [hname]; exact ⟨by decide, by decide⟩
    · rw [hname]; exact ⟨by decide, by decide⟩
    · obtain ⟨-, htru⟩ := himpl rfl
      rw [show camelOfSnake "read" = "read" from by decide] at htru
      rw [hattrs "read" (Or.inl rfl)] at htru
      exact absurd htru (by decide)
    · obtain ⟨-, htru⟩ := himpl rfl
      rw [show camelOfSnake "unread" = "unread" from by decide] at htru
      rw [hattrs "unread" (Or.inr rfl)] at htru
      exact absurd htru (by decide)
    · rw [hname]; exact ⟨by decide, by decide⟩
    · rw [hname]; exact ⟨by decide, by decide⟩
    · rw [hname]; exact ⟨by decide, by decide⟩

/-- C5 witness: a concrete persisted mailbox with set counters; its
update touches neither counter column and the instance is unchanged. -/
theorem mailbox_save_preserves_counters_witness :
    (⟨JSVal.num 7, JSVal.num 1, JSVal.str "100", JSVal.undef, JSVal.str "pw",
      JSVal.str "Alice", JSVal.str "a@b.c", JSVal.num 4, JSVal.num 2,
      JSVal.undef, JSVal.undef, JSVal.undef⟩ : MailboxJS).id.truthy = true ∧
    (mailboxRepoSave
      ⟨JSVal.num 7, JSVal.num 1, JSVal.str "100", JSVal.undef, JSVal.str "pw",
       JSVal.str "Alice", JSVal.str "a@b.c", JSVal.num 4, JSVal.num 2,
       JSVal.undef, JSVal.undef, JSVal.undef⟩).2 =
      ⟨JSVal.num 7, JSVal.num 1, JSVal.str "100", JSVal.undef, JSVal.str "pw",
       JSVal.str "Alice", JSVal.str "a@b.c", JSVal.num 4, JSVal.num 2,
       JSVal.undef, JSVal.undef, JSVal.undef⟩ := by
  have h := mailbox_save_preserves_counters
    ⟨JSVal.num 7, JSVal.num 1, JSVal.str "100", JSVal.undef, JSVal.str "pw",
     JSVal.str "Alice", JSVal.str "a@b.c", JSVal.num 4, JSVal.num 2,
     JSVal.undef, JSVal.undef, JSVal.undef⟩ rfl
  exact ⟨rfl, h.2.2.2⟩

/-- A persisted mailbox instance whose `email` attribute is explicitly
`null` (an intended overwrite-to-null) and whose other optional
attributes are left unset. -/
def mailboxNullEmailFixture : MailboxJS :=
  { id := JSVal.num 1
    contextId := JSVal.num 1
    mailboxNumber := JSVal.str "1234"
    mailboxName := JSVal.undef
    password := JSVal.str "pw"
    name := JSVal.str "Alice"
    email := JSVal.null
    read := JSVal.undef
    unread := JSVal.undef
    greetingBusy := JSVal.undef
    greetingAway := JSVal.undef
    greetingName := JSVal.undef }

/-- C3: evaluation at the failing input.  `getFields` keeps an ordinary
attribute only when it is truthy, so the null-valued `email` attribute
never reaches the UPDATE statement — even though `removeEmptyFields`
itself (whose doc comment says nulls are conserved so fields can be
updated to null) would have kept it.  Truthy attributes are included. -/
theorem common_save_update_drops_null_attribute :
    "email" ∉ ((mailboxRepoSave mailboxNullEmailFixture).1.map Prod.fst) ∧
    ("name", JSVal.str "Alice") ∈ (mailboxRepoSave mailboxNullEmailFixture).1 ∧
    ("mailbox_number", JSVal.str "1234") ∈ (mailboxRepoSave mailboxNullEmailFixture).1 ∧
    removeEmptyFields [("email", JSVal.null)] = [("email", JSVal.null)] := by
  refine ⟨?_, ?_, ?_, ?_⟩ <;> decide
